import Mathlib

/-!
Shallow embedding of the Lume e-reader (`src/Firmware/main.py` and
`src/Production/main.py`): the e-paper frame encoder, the busy-wait loop,
debounced input dispatch, plain-text and EPUB pagination, reader page
navigation, settings loading, and the menu/reading navigation state machine.
Machine text is modelled as `List Char`; fallible collaborators (file
reads, `fitz.open`, `epub.read_epub`) are modelled as `Except` values fed
to the functions that consume them.
-/

namespace Lume

/-- `EReader.current_menu`: the navigation mode string, `'main'` or `'reading'`. -/
inductive Mode where
  | main
  | reading
deriving DecidableEq, Repr

/-- The persisted settings dictionary: keys `last_book`, `last_page`, `font_size`. -/
structure Settings where
  last_book : Option (List Char)
  last_page : Nat
  font_size : Nat
deriving DecidableEq, Repr

/-- The `default_settings` dictionary in `EReader.load_settings`. -/
def default_settings : Settings :=
  { last_book := none, last_page := 0, font_size := 16 }

/-- `EReader.load_settings`: `json.load` of the settings file either parses to a
settings record or fails (missing file, bad JSON); the bare `except` returns
the defaults on any failure. -/
def load_settings (r : Except (List Char) Settings) : Settings :=
  match r with
  | .ok s => s
  | .error _ => default_settings

/-! ## Busy-wait loop (`EInkDisplay.wait_until_idle`) -/

/-- `EInkDisplay.wait_until_idle` polls the busy line in a
`while GPIO.input(BUSY_PIN) == GPIO.HIGH: time.sleep(0.01)` loop.
`busy n` is the level read at the n-th poll.  `wait_until_idle_fuel busy i f`
runs the loop from poll index `i` for at most `f` polls and reports whether
the loop exited within that many polls. -/
def wait_until_idle_fuel (busy : Nat → Bool) : Nat → Nat → Bool
  | _, 0 => false
  | i, fuel + 1 => if busy i then wait_until_idle_fuel busy (i + 1) fuel else true

/-- The busy-wait loop terminates on the poll trace `busy`. -/
def WaitTerminates (busy : Nat → Bool) : Prop :=
  ∃ fuel, wait_until_idle_fuel busy 0 fuel = true

/-- The always-busy trace: the panel never reports idle. -/
def alwaysBusy : Nat → Bool := fun _ => true

/-! ## Input dispatch (`InputHandler.handle_input`) -/

/-- The fixed symbolic action vocabulary of the input subsystem. -/
inductive Action where
  | up
  | down
  | left
  | right
  | select
  | menu
  | back
  | bookmark
  | settings
deriving DecidableEq, Repr

/-- GPIO pin constants of `InputHandler`. -/
def JOYSTICK_UP : Nat := 22
def JOYSTICK_DOWN : Nat := 23
def JOYSTICK_LEFT : Nat := 5
def JOYSTICK_RIGHT : Nat := 6
def JOYSTICK_CENTER : Nat := 12
def BUTTON_1 : Nat := 4
def BUTTON_2 : Nat := 14
def BUTTON_3 : Nat := 15
def BUTTON_4 : Nat := 27

/-- The `event_map` dictionary in `InputHandler.handle_input`. -/
def event_map (pin : Nat) : Option Action :=
  if pin = JOYSTICK_UP then some .up
  else if pin = JOYSTICK_DOWN then some .down
  else if pin = JOYSTICK_LEFT then some .left
  else if pin = JOYSTICK_RIGHT then some .right
  else if pin = JOYSTICK_CENTER then some .select
  else if pin = BUTTON_1 then some .menu
  else if pin = BUTTON_2 then some .back
  else if pin = BUTTON_3 then some .bookmark
  else if pin = BUTTON_4 then some .settings
  else none

/-- `InputHandler` state: the `last_press_time` dictionary (per-pin
last-accepted timestamp, absent when the pin has never been accepted). -/
structure InputSt where
  last_press_time : Nat → Option ℚ

/-- `InputHandler.debounce_delay = 0.2` seconds. -/
def debounce_delay : ℚ := 1 / 5

/-- The final dispatch step of `InputHandler.handle_input`:
`event = event_map.get(pin); if event and event in self.event_handlers:
self.event_handlers[event]()`.  `bound` records which actions have a
registered handler; the result is the action whose handler is invoked. -/
def dispatch_event (bound : Action → Bool) (pin : Nat) : Option Action :=
  match event_map pin with
  | some a => if bound a then some a else none
  | none => none

/-- `InputHandler.handle_input` on an edge for `pin` at time `t`: if a prior
accepted edge on the pin lies within `debounce_delay` of `t` the edge is
discarded (early `return`, no state update); otherwise `t` is recorded in
`last_press_time[pin]` and the mapped action's handler (if bound) runs. -/
def handle_input (bound : Action → Bool) (st : InputSt) (pin : Nat) (t : ℚ) :
    InputSt × Option Action :=
  let accept : InputSt × Option Action :=
    (⟨fun p => if p = pin then some t else st.last_press_time p⟩,
      dispatch_event bound pin)
  match st.last_press_time pin with
  | some t0 => if t - t0 < debounce_delay then (st, none) else accept
  | none => accept

/-! ## Lemmas about the busy-wait loop -/

/-- If the busy line never clears, no amount of fuel makes the loop exit. -/
lemma wait_fuel_all_busy (busy : Nat → Bool) (h : ∀ n, busy n = true) :
    ∀ fuel i, wait_until_idle_fuel busy i fuel = false := by
  intro fuel
  induction fuel with
  | zero => intro i; rfl
  | succ f ih => intro i; simp [wait_until_idle_fuel, h i, ih (i + 1)]

/-- If the busy line clears at poll `i + k`, the loop exits within `k + 1`
polls when started at index `i`. -/
lemma wait_fuel_clears (busy : Nat → Bool) :
    ∀ k i, busy (i + k) = false → wait_until_idle_fuel busy i (k + 1) = true := by
  intro k
  induction k with
  | zero =>
    intro i h
    simp only [Nat.add_zero] at h
    simp [wait_until_idle_fuel, h]
  | succ k ih =>
    intro i h
    by_cases hb : busy i
    · have hshift : busy ((i + 1) + k) = false := by
        have he : (i + 1) + k = i + (k + 1) := by omega
        rw [he]; exact h
      have hrec := ih (i + 1) hshift
      show wait_until_idle_fuel busy i (k + 1 + 1) = true
      rw [wait_until_idle_fuel, if_pos hb]
      exact hrec
    · simp [wait_until_idle_fuel, hb]

/-- C3 (amended): the busy-wait loop of `wait_until_idle` terminates exactly
when the busy line eventually reads clear; there is no bounded timeout — on a
trace where busy never clears the loop never exits. -/
theorem C3_busy_wait_terminates_iff (busy : Nat → Bool) :
    WaitTerminates busy ↔ ∃ n, busy n = false := by
  constructor
  · intro ⟨fuel, hfuel⟩
    by_contra hall
    push_neg at hall
    have hall' : ∀ n, busy n = true := by
      intro n
      cases h : busy n with
      | false => exact absurd h (hall n)
      | true => rfl
    rw [wait_fuel_all_busy busy hall' fuel 0] at hfuel
    exact Bool.false_ne_true hfuel
  · intro ⟨n, hn⟩
    exact ⟨n + 1, wait_fuel_clears busy n 0 (by simpa using hn)⟩

/-- C3 (counterexample): on the always-busy trace the `wait_until_idle` loop
never terminates — the claimed bounded timeout does not exist in the code. -/
theorem C3_counterexample : ¬ WaitTerminates alwaysBusy := by
  intro ⟨fuel, hfuel⟩
  rw [wait_fuel_all_busy alwaysBusy (fun _ => rfl) fuel 0] at hfuel
  exact Bool.false_ne_true hfuel

/-! ## C9: settings loading -/

/-- C9: a missing settings file or a parse failure makes `load_settings`
return exactly the defaults (`last_book` absent, `last_page = 0`,
`font_size = 16`); a successful parse is returned unchanged, and the
function is total (never raises). -/
theorem C9_load_settings_defaults (e : List Char) (s : Settings) :
    load_settings (.error e) = default_settings ∧
    default_settings.last_book = none ∧
    default_settings.last_page = 0 ∧
    default_settings.font_size = 16 ∧
    load_settings (.ok s) = s := by
  refine ⟨rfl, rfl, rfl, rfl, rfl⟩

/-! ## C8: debounce -/

/-- C8: starting from a state with no recorded press on `pin`, a first edge
at `t1` dispatches its mapped bound action and records `t1`; a second edge at
`t2` within the debounce window is discarded without dispatching and without
updating the recorded time; a second edge spaced at least the window away
dispatches the action again and records `t2`. -/
theorem C8_debounce (bound : Action → Bool) (st0 : InputSt) (pin : Nat)
    (t1 t2 : ℚ) (act : Action)
    (hmap : event_map pin = some act) (hb : bound act = true)
    (h0 : st0.last_press_time pin = none) :
    (handle_input bound st0 pin t1).2 = some act ∧
    (handle_input bound st0 pin t1).1.last_press_time pin = some t1 ∧
    (t2 - t1 < debounce_delay →
      (handle_input bound (handle_input bound st0 pin t1).1 pin t2).2 = none ∧
      (handle_input bound (handle_input bound st0 pin t1).1 pin
        t2).1.last_press_time pin = some t1) ∧
    (debounce_delay ≤ t2 - t1 →
      (handle_input bound (handle_input bound st0 pin t1).1 pin t2).2 = some act ∧
      (handle_input bound (handle_input bound st0 pin t1).1 pin
        t2).1.last_press_time pin = some t2) := by
  have hd : dispatch_event bound pin = some act := by
    simp [dispatch_event, hmap, hb]
  have h1 : handle_input bound st0 pin t1 =
      (⟨fun p => if p = pin then some t1 else st0.last_press_time p⟩,
        some act) := by
    simp [handle_input, h0, hd]
  refine ⟨by rw [h1], by rw [h1]; simp, ?_, ?_⟩
  · intro hlt
    rw [h1]
    simp only [handle_input]
    simp [hlt]
  · intro hge
    rw [h1]
    simp only [handle_input]
    simp [not_lt.mpr hge, hd]

/-- C8 (witness): concrete run on pin 22 (`up`), first edge at t = 0, second
at t = 1/10 (inside the window) and alternatively at t = 3/10 (outside). -/
theorem C8_debounce_witness :
    ((handle_input (fun _ => true) ⟨fun _ => none⟩ 22 0).2 = some .up ∧
      (handle_input (fun _ => true) ⟨fun _ => none⟩ 22 0).1.last_press_time 22 =
        some 0 ∧
      ((1 : ℚ) / 10 - 0 < debounce_delay →
        (handle_input (fun _ => true)
          (handle_input (fun _ => true) ⟨fun _ => none⟩ 22 0).1 22
            ((1 : ℚ) / 10)).2 = none ∧
        (handle_input (fun _ => true)
          (handle_input (fun _ => true) ⟨fun _ => none⟩ 22 0).1 22
            ((1 : ℚ) / 10)).1.last_press_time 22 = some 0) ∧
      (debounce_delay ≤ (1 : ℚ) / 10 - 0 →
        (handle_input (fun _ => true)
          (handle_input (fun _ => true) ⟨fun _ => none⟩ 22 0).1 22
            ((1 : ℚ) / 10)).2 = some .up ∧
        (handle_input (fun _ => true)
          (handle_input (fun _ => true) ⟨fun _ => none⟩ 22 0).1 22
            ((1 : ℚ) / 10)).1.last_press_time 22 = some ((1 : ℚ) / 10))) ∧
    ((1 : ℚ) / 10 - 0 < debounce_delay) := by
  refine ⟨C8_debounce (fun _ => true) ⟨fun _ => none⟩ 22 0 ((1 : ℚ) / 10) .up
    (by rfl) rfl rfl, ?_⟩
  norm_num [debounce_delay]

/-! ## Text splitting, joining, hard-wrap and pagination -/

/-- Python `content.split('\n')` on a character list (an empty input yields
one empty line, like `str.split`). -/
def splitNl : List Char → List (List Char)
  | [] => [[]]
  | c :: cs =>
    if c = '\n' then [] :: splitNl cs
    else
      match splitNl cs with
      | [] => [[c]]
      | l :: ls => (c :: l) :: ls

/-- Python newline join of a list of lines. -/
def joinNl : List (List Char) → List Char
  | [] => []
  | [l] => l
  | l :: ls => l ++ '\n' :: joinNl ls

lemma splitNl_ne_nil : ∀ cs, splitNl cs ≠ [] := by
  intro cs
  cases cs with
  | nil => simp [splitNl]
  | cons c cs =>
    simp only [splitNl]
    split
    · simp
    · split <;> simp

lemma splitNl_no_newline : ∀ cs, ∀ l ∈ splitNl cs, '\n' ∉ l := by
  intro cs
  induction cs with
  | nil => intro l hl; simp [splitNl] at hl; simp [hl]
  | cons c cs ih =>
    intro l hl
    simp only [splitNl] at hl
    by_cases hc : c = '\n'
    · rw [if_pos hc] at hl
      rcases List.mem_cons.mp hl with h | h
      · simp [h]
      · exact ih l h
    · rw [if_neg hc] at hl
      obtain ⟨x, xs, hx⟩ := List.exists_cons_of_ne_nil (splitNl_ne_nil cs)
      rw [hx] at hl
      rcases List.mem_cons.mp hl with h | h
      · subst h
        intro hmem
        rcases List.mem_cons.mp hmem with h | h
        · exact hc h.symm
        · exact ih x (by rw [hx]; exact List.mem_cons_self x xs) h
      · exact ih l (by rw [hx]; exact List.mem_cons_of_mem x h)

lemma splitNl_of_no_newline : ∀ l : List Char, '\n' ∉ l → splitNl l = [l] := by
  intro l
  induction l with
  | nil => intro _; rfl
  | cons c cs ih =>
    intro h
    have hc : c ≠ '\n' := fun hcn => h (by simp [hcn])
    have hcs : '\n' ∉ cs := fun hm => h (List.mem_cons_of_mem c hm)
    simp only [splitNl, if_neg hc, ih hcs]

lemma splitNl_append_newline :
    ∀ (l cs : List Char), '\n' ∉ l → splitNl (l ++ '\n' :: cs) = l :: splitNl cs := by
  intro l
  induction l with
  | nil => intro cs _; simp [splitNl]
  | cons c l' ih =>
    intro cs h
    have hc : c ≠ '\n' := fun hcn => h (by simp [hcn])
    have hl' : '\n' ∉ l' := fun hm => h (List.mem_cons_of_mem c hm)
    show splitNl (c :: (l' ++ '\n' :: cs)) = (c :: l') :: splitNl cs
    rw [splitNl, if_neg hc, ih cs hl']

/-- Splitting a join of newline-free lines recovers the lines. -/
lemma splitNl_joinNl :
    ∀ ls : List (List Char), ls ≠ [] → (∀ l ∈ ls, '\n' ∉ l) →
      splitNl (joinNl ls) = ls := by
  intro ls
  induction ls with
  | nil => intro h; exact absurd rfl h
  | cons l ls ih =>
    intro _ hnl
    cases ls with
    | nil =>
      show splitNl (joinNl [l]) = [l]
      rw [joinNl]
      exact splitNl_of_no_newline l (hnl l (by simp))
    | cons l' ls' =>
      show splitNl (l ++ '\n' :: joinNl (l' :: ls')) = l :: l' :: ls'
      rw [splitNl_append_newline l _ (hnl l (by simp))]
      rw [ih (by simp) (fun x hx => hnl x (List.mem_cons_of_mem l hx))]

/-- Fuel-indexed form of the hard-wrap loop of `BookReader.load_book`
(`src/Firmware`) and `TextBookReader.load_book` (`src/Production`):
`while len(line) > chars_per_line: current.append(line[:80]); line = line[80:]`
followed by `current.append(line)` (`chars_per_line = 80`).  The loop strictly
shrinks the line, so fuel equal to the initial length is never exhausted: the
fuel-0 arm is reached only with an empty line, where the loop body would not
run anyway. -/
def wrapLineFuel : Nat → List Char → List (List Char)
  | 0, line => [line]
  | fuel + 1, line =>
    if 80 < line.length then line.take 80 :: wrapLineFuel fuel (line.drop 80)
    else [line]

/-- The chunks appended for one source line by the text hard-wrap loop. -/
def wrapLine (line : List Char) : List (List Char) :=
  wrapLineFuel line.length line

/-- Fuel-indexed form of the wrap comprehension of `EPUBBookReader.paginate`:
`wrapped = [line[i:i+80] for i in range(0, len(line), 80)]`.
`range(0, 0, 80)` is empty, so an empty line produces no chunks. -/
def wrapped80Fuel : Nat → List Char → List (List Char)
  | 0, line => if line = [] then [] else [line]
  | fuel + 1, line =>
    if line = [] then []
    else if 80 < line.length then
      line.take 80 :: wrapped80Fuel fuel (line.drop 80)
    else [line]

/-- The chunk list `wrapped` of `EPUBBookReader.paginate` for one line. -/
def wrapped80 (line : List Char) : List (List Char) :=
  wrapped80Fuel line.length line

lemma wrapLineFuel_congr :
    ∀ (fuel fuel' : Nat) (l : List Char), l.length ≤ fuel → l.length ≤ fuel' →
      wrapLineFuel fuel l = wrapLineFuel fuel' l := by
  intro fuel
  induction fuel with
  | zero =>
    intro fuel' l h _
    have hl : l = [] := List.length_eq_zero.mp (by omega)
    subst hl
    cases fuel' <;> simp [wrapLineFuel]
  | succ fuel ih =>
    intro fuel' l h h'
    cases fuel' with
    | zero =>
      have hl : l = [] := List.length_eq_zero.mp (by omega)
      subst hl
      simp [wrapLineFuel]
    | succ fuel' =>
      show wrapLineFuel (fuel + 1) l = wrapLineFuel (fuel' + 1) l
      rw [wrapLineFuel, wrapLineFuel]
      by_cases h80 : 80 < l.length
      · rw [if_pos h80, if_pos h80,
          ih fuel' (l.drop 80) (by simp; omega) (by simp; omega)]
      · rw [if_neg h80, if_neg h80]

/-- The defining one-step unfolding of the text hard-wrap. -/
lemma wrapLine_eq (l : List Char) :
    wrapLine l = if 80 < l.length then l.take 80 :: wrapLine (l.drop 80)
      else [l] := by
  by_cases h80 : 80 < l.length
  · rw [if_pos h80]
    obtain ⟨n, hn⟩ : ∃ n, l.length = n + 1 := ⟨l.length - 1, by omega⟩
    rw [wrapLine, hn, wrapLineFuel, if_pos h80, wrapLine]
    rw [wrapLineFuel_congr n (l.drop 80).length (l.drop 80)
      (by simp; omega) le_rfl]
  · rw [if_neg h80]
    cases hn : l.length with
    | zero => rw [wrapLine, hn, wrapLineFuel]
    | succ n => rw [wrapLine, hn, wrapLineFuel, if_neg (by omega)]

lemma wrapped80Fuel_congr :
    ∀ (fuel fuel' : Nat) (l : List Char), l.length ≤ fuel → l.length ≤ fuel' →
      wrapped80Fuel fuel l = wrapped80Fuel fuel' l := by
  intro fuel
  induction fuel with
  | zero =>
    intro fuel' l h _
    have hl : l = [] := List.length_eq_zero.mp (by omega)
    subst hl
    cases fuel' <;> simp [wrapped80Fuel]
  | succ fuel ih =>
    intro fuel' l h h'
    cases fuel' with
    | zero =>
      have hl : l = [] := List.length_eq_zero.mp (by omega)
      subst hl
      simp [wrapped80Fuel]
    | succ fuel' =>
      show wrapped80Fuel (fuel + 1) l = wrapped80Fuel (fuel' + 1) l
      rw [wrapped80Fuel, wrapped80Fuel]
      by_cases hnil : l = []
      · rw [if_pos hnil, if_pos hnil]
      · rw [if_neg hnil, if_neg hnil]
        by_cases h80 : 80 < l.length
        · rw [if_pos h80, if_pos h80,
            ih fuel' (l.drop 80) (by simp; omega) (by simp; omega)]
        · rw [if_neg h80, if_neg h80]

/-- The defining one-step unfolding of the EPUB wrap comprehension. -/
lemma wrapped80_eq (l : List Char) :
    wrapped80 l = if l = [] then []
      else if 80 < l.length then l.take 80 :: wrapped80 (l.drop 80)
      else [l] := by
  by_cases hnil : l = []
  · rw [if_pos hnil]
    subst hnil
    rfl
  · rw [if_neg hnil]
    obtain ⟨n, hn⟩ : ∃ n, l.length = n + 1 :=
      ⟨l.length - 1, by
        have := List.length_pos.mpr hnil
        omega⟩
    by_cases h80 : 80 < l.length
    · rw [if_pos h80, wrapped80, hn, wrapped80Fuel, if_neg hnil, if_pos h80,
        wrapped80]
      rw [wrapped80Fuel_congr n (l.drop 80).length (l.drop 80)
        (by simp; omega) le_rfl]
    · rw [if_neg h80, wrapped80, hn, wrapped80Fuel, if_neg hnil,
        if_neg (by omega)]

lemma wrapLine_ne_nil (l : List Char) : wrapLine l ≠ [] := by
  rw [wrapLine_eq]; split <;> simp

lemma wrapLine_join_aux :
    ∀ (n : Nat) (l : List Char), l.length ≤ n → (wrapLine l).flatten = l := by
  intro n
  induction n with
  | zero =>
    intro l h
    have hl : l = [] := List.length_eq_zero.mp (by omega)
    subst hl
    rw [wrapLine_eq]
    simp
  | succ n ih =>
    intro l h
    rw [wrapLine_eq]
    by_cases h80 : 80 < l.length
    · rw [if_pos h80]
      rw [List.flatten_cons, ih (l.drop 80) (by simp; omega)]
      exact List.take_append_drop 80 l
    · rw [if_neg h80]
      simp

lemma wrapLine_join (l : List Char) : (wrapLine l).flatten = l :=
  wrapLine_join_aux l.length l le_rfl

lemma wrapLine_short (l : List Char) (h : l.length ≤ 80) : wrapLine l = [l] := by
  rw [wrapLine_eq, if_neg (by omega)]

lemma wrapped80_nil : wrapped80 [] = [] := rfl

lemma wrapped80_join_aux :
    ∀ (n : Nat) (l : List Char), l.length ≤ n → (wrapped80 l).flatten = l := by
  intro n
  induction n with
  | zero =>
    intro l h
    have hl : l = [] := List.length_eq_zero.mp (by omega)
    subst hl
    rw [wrapped80_nil]
    rfl
  | succ n ih =>
    intro l h
    rw [wrapped80_eq]
    by_cases hnil : l = []
    · rw [if_pos hnil, hnil]
      rfl
    · rw [if_neg hnil]
      by_cases h80 : 80 < l.length
      · rw [if_pos h80]
        rw [List.flatten_cons, ih (l.drop 80) (by simp; omega)]
        exact List.take_append_drop 80 l
      · rw [if_neg h80]
        simp

lemma wrapped80_join (l : List Char) : (wrapped80 l).flatten = l :=
  wrapped80_join_aux l.length l le_rfl

lemma wrapped80_short (l : List Char) (hne : l ≠ []) (h : l.length ≤ 80) :
    wrapped80 l = [l] := by
  rw [wrapped80_eq, if_neg hne, if_neg (by omega)]

/-- A character of a wrap chunk is a character of the wrapped line. -/
lemma mem_of_mem_wrap {wrap : List Char → List (List Char)}
    (hjoin : ∀ l, (wrap l).flatten = l) {line c : List Char} (hc : c ∈ wrap line) :
    ∀ ch ∈ c, ch ∈ line := by
  intro ch hch
  have : ch ∈ (wrap line).flatten := List.mem_flatten.mpr ⟨c, hc, hch⟩
  rwa [hjoin line] at this

/-- The pagination loop of `BookReader.load_book` / `TextBookReader.load_book`:
per source line, append all wrap chunks to the current page, then flush a page
once it holds at least `lines_per_page = 20` lines; flush a non-empty final
page after the loop. -/
def load_book_go :
    List (List Char) → List (List Char) → List (List Char) → List (List Char)
  | [], current, pages => if current = [] then pages else pages ++ [joinNl current]
  | line :: rest, current, pages =>
    if 20 ≤ (current ++ wrapLine line).length then
      load_book_go rest [] (pages ++ [joinNl (current ++ wrapLine line)])
    else
      load_book_go rest (current ++ wrapLine line) pages

/-- The pages produced by `load_book` from successfully read content. -/
def load_book_pages (content : List Char) : List (List Char) :=
  load_book_go (splitNl content) [] []

/-- The diagnostic page `f"Error loading book: {e}"` stored on a read failure. -/
def error_page (e : List Char) : List Char := "Error loading book: ".data ++ e

/-- `load_book`: the `try` body paginates the file content; any exception is
caught and the page list becomes the single diagnostic page. -/
def load_book (r : Except (List Char) (List Char)) : List (List Char) :=
  match r with
  | .ok content => load_book_pages content
  | .error e => [error_page e]

/-- The chunk loop of `EPUBBookReader.paginate`: append each wrapped chunk to
the current page and flush exactly when it reaches 20 lines; returns the
still-open page and the flushed pages. -/
def paginate_chunks :
    List (List Char) → List (List Char) → List (List Char) →
      List (List Char) × List (List Char)
  | [], current, pages => (current, pages)
  | w :: ws, current, pages =>
    if (current ++ [w]).length = 20 then
      paginate_chunks ws [] (pages ++ [joinNl (current ++ [w])])
    else
      paginate_chunks ws (current ++ [w]) pages

/-- The line loop of `EPUBBookReader.paginate`. -/
def paginate_go :
    List (List Char) → List (List Char) → List (List Char) →
      List (List Char) × List (List Char)
  | [], current, pages => (current, pages)
  | line :: rest, current, pages =>
    paginate_go rest (paginate_chunks (wrapped80 line) current pages).1
      (paginate_chunks (wrapped80 line) current pages).2

/-- `EPUBBookReader.paginate`. -/
def paginate (content : List Char) : List (List Char) :=
  if (paginate_go (splitNl content) [] []).1 = [] then
    (paginate_go (splitNl content) [] []).2
  else
    (paginate_go (splitNl content) [] []).2 ++
      [joinNl (paginate_go (splitNl content) [] []).1]

/-- `EPUBBookReader.parse_book`: `pages.extend(paginate(text))` over the
document items' extracted texts, in document order. -/
def parse_book (texts : List (List Char)) : List (List Char) :=
  (texts.map paginate).flatten

/-- The line sequence a reader shows for a page list: `display_page` splits
each stored page back on newlines. -/
def pages_lines (pages : List (List Char)) : List (List Char) :=
  (pages.map splitNl).flatten

lemma pages_lines_append (p q : List (List Char)) :
    pages_lines (p ++ q) = pages_lines p ++ pages_lines q := by
  simp [pages_lines]

lemma pages_lines_single (x : List Char) : pages_lines [x] = splitNl x := by
  simp [pages_lines]

/-- Flushed pages of the text pagination loop carry exactly the chunks fed in. -/
lemma load_book_go_lines :
    ∀ lines current pages : List (List Char),
      (∀ l ∈ current, '\n' ∉ l) → (∀ l ∈ lines, '\n' ∉ l) →
      pages_lines (load_book_go lines current pages) =
        pages_lines pages ++ current ++ (lines.map wrapLine).flatten := by
  intro lines
  induction lines with
  | nil =>
    intro current pages hc _
    by_cases h : current = []
    · simp [load_book_go, h]
    · rw [load_book_go, if_neg h, pages_lines_append, pages_lines_single,
        splitNl_joinNl current h hc]
      simp
  | cons line rest ih =>
    intro current pages hc hl
    have hline : '\n' ∉ line := hl line (by simp)
    have hrest : ∀ l ∈ rest, '\n' ∉ l := fun l h => hl l (by simp [h])
    have hcur : ∀ l ∈ current ++ wrapLine line, '\n' ∉ l := by
      intro l hm
      rcases List.mem_append.mp hm with h | h
      · exact hc l h
      · intro hch
        exact hline (mem_of_mem_wrap wrapLine_join h '\n' hch)
    rw [load_book_go]
    by_cases hf : 20 ≤ (current ++ wrapLine line).length
    · rw [if_pos hf, ih [] _ (by simp) hrest]
      have hne : current ++ wrapLine line ≠ [] := by
        intro h0
        rw [h0] at hf
        simp at hf
      rw [pages_lines_append, pages_lines_single, splitNl_joinNl _ hne hcur]
      simp [List.append_assoc]
    · rw [if_neg hf, ih _ _ hcur hrest]
      simp [List.append_assoc]

/-- Flushed pages plus the open page of the EPUB chunk loop carry exactly the
chunks fed in, and the open page stays newline-free. -/
lemma paginate_chunks_lines :
    ∀ ws current pages : List (List Char),
      (∀ l ∈ current, '\n' ∉ l) → (∀ w ∈ ws, '\n' ∉ w) →
      (pages_lines (paginate_chunks ws current pages).2 ++
          (paginate_chunks ws current pages).1 =
        pages_lines pages ++ current ++ ws) ∧
      (∀ l ∈ (paginate_chunks ws current pages).1, '\n' ∉ l) := by
  intro ws
  induction ws with
  | nil =>
    intro current pages hc _
    exact ⟨by simp [paginate_chunks], hc⟩
  | cons w ws ih =>
    intro current pages hc hw
    have hwhead : '\n' ∉ w := hw w (by simp)
    have hwrest : ∀ x ∈ ws, '\n' ∉ x := fun x h => hw x (by simp [h])
    have hcur : ∀ l ∈ current ++ [w], '\n' ∉ l := by
      intro l hm
      rcases List.mem_append.mp hm with h | h
      · exact hc l h
      · simp at h; subst h; exact hwhead
    rw [paginate_chunks]
    by_cases hf : (current ++ [w]).length = 20
    · rw [if_pos hf]
      obtain ⟨heq, hnl⟩ := ih [] (pages ++ [joinNl (current ++ [w])]) (by simp) hwrest
      refine ⟨?_, hnl⟩
      rw [heq, pages_lines_append, pages_lines_single,
        splitNl_joinNl _ (by simp) hcur]
      simp [List.append_assoc]
    · rw [if_neg hf]
      obtain ⟨heq, hnl⟩ := ih (current ++ [w]) pages hcur hwrest
      refine ⟨?_, hnl⟩
      rw [heq]
      simp [List.append_assoc]

/-- Same accounting for the EPUB line loop. -/
lemma paginate_go_lines :
    ∀ lines current pages : List (List Char),
      (∀ l ∈ current, '\n' ∉ l) → (∀ l ∈ lines, '\n' ∉ l) →
      (pages_lines (paginate_go lines current pages).2 ++
          (paginate_go lines current pages).1 =
        pages_lines pages ++ current ++ (lines.map wrapped80).flatten) ∧
      (∀ l ∈ (paginate_go lines current pages).1, '\n' ∉ l) := by
  intro lines
  induction lines with
  | nil =>
    intro current pages hc _
    exact ⟨by simp [paginate_go], hc⟩
  | cons line rest ih =>
    intro current pages hc hl
    have hline : '\n' ∉ line := hl line (by simp)
    have hrest : ∀ l ∈ rest, '\n' ∉ l := fun l h => hl l (by simp [h])
    have hws : ∀ w ∈ wrapped80 line, '\n' ∉ w := by
      intro w hwm hch
      exact hline (mem_of_mem_wrap wrapped80_join hwm '\n' hch)
    obtain ⟨heq1, hnl1⟩ := paginate_chunks_lines (wrapped80 line) current pages hc hws
    obtain ⟨heq2, hnl2⟩ := ih (paginate_chunks (wrapped80 line) current pages).1
      (paginate_chunks (wrapped80 line) current pages).2 hnl1 hrest
    rw [paginate_go]
    refine ⟨?_, hnl2⟩
    rw [heq2, heq1]
    simp [List.append_assoc]

/-- The line sequence of the text paginator's pages is exactly the
hard-wrapped source line sequence. -/
lemma load_book_pages_lines (content : List Char) :
    pages_lines (load_book_pages content) =
      ((splitNl content).map wrapLine).flatten := by
  rw [load_book_pages,
    load_book_go_lines (splitNl content) [] [] (by simp)
      (splitNl_no_newline content)]
  simp [pages_lines]

/-- The line sequence of the EPUB paginator's pages is exactly the
`wrapped80`-wrapped source line sequence. -/
lemma paginate_lines (content : List Char) :
    pages_lines (paginate content) =
      ((splitNl content).map wrapped80).flatten := by
  obtain ⟨heq, hnl⟩ := paginate_go_lines (splitNl content) [] [] (by simp)
    (splitNl_no_newline content)
  rw [paginate]
  by_cases h : (paginate_go (splitNl content) [] []).1 = []
  · rw [if_pos h]
    rw [h] at heq
    simpa [pages_lines] using heq
  · rw [if_neg h, pages_lines_append, pages_lines_single,
      splitNl_joinNl _ h hnl]
    simpa [pages_lines] using heq

/-- The text pagination loop never returns an empty page list when fed a
non-empty line list (and `splitNl` is never empty). -/
lemma load_book_go_ne_nil :
    ∀ lines current pages : List (List Char),
      pages ≠ [] ∨ current ≠ [] ∨ lines ≠ [] →
      load_book_go lines current pages ≠ [] := by
  intro lines
  induction lines with
  | nil =>
    intro current pages h
    rw [load_book_go]
    by_cases hcur : current = []
    · rw [if_pos hcur]
      rcases h with h | h | h
      · exact h
      · exact absurd hcur h
      · exact absurd rfl h
    · rw [if_neg hcur]
      simp
  | cons line rest ih =>
    intro current pages _
    rw [load_book_go]
    by_cases hf : 20 ≤ (current ++ wrapLine line).length
    · rw [if_pos hf]
      exact ih [] _ (Or.inl (by simp))
    · rw [if_neg hf]
      exact ih _ pages (Or.inr (Or.inl (by simp [wrapLine_ne_nil line])))

lemma load_book_pages_ne_nil (content : List Char) :
    load_book_pages content ≠ [] :=
  load_book_go_ne_nil (splitNl content) [] []
    (Or.inr (Or.inr (splitNl_ne_nil content)))

/-- `load_book` always yields at least one page, failure included. -/
lemma load_book_pos (r : Except (List Char) (List Char)) :
    1 ≤ (load_book r).length := by
  match r with
  | .ok content =>
    have h := load_book_pages_ne_nil content
    simp only [load_book]
    exact List.length_pos.mpr h
  | .error e => simp [load_book]

/-! ## Display frame encoder (`EInkDisplay.display_image`) -/

/-- One packed byte of `EInkDisplay.display_image`: the inner
`for bit in range(8)` loop at row `y` and byte start column `x`; the bit for
an in-range pixel is set (`byte |= 0x80 >> bit`) exactly when the pixel reads
0, i.e. black.  `img x y` models `image.getpixel((x, y))`. -/
def encode_byte (img : Nat → Nat → Nat) (W x y : Nat) : Nat :=
  (List.range 8).foldl
    (fun byte bit =>
      if x + bit < W then
        if img (x + bit) y = 0 then byte ||| (128 >>> bit) else byte
      else byte)
    0

/-- The frame buffer `buf` built by `display_image`: rows `y in range(H)`
outer, byte start columns `x in range(0, W, 8)` inner — one byte per
`k < ceil(W/8)` at `x = 8*k`, appended in row-major order. -/
def display_image_buf (img : Nat → Nat → Nat) (W H : Nat) : List Nat :=
  ((List.range H).map
    (fun y =>
      (List.range ((W + 7) / 8)).map (fun k => encode_byte img W (8 * k) y))).flatten

lemma testBit_foldl_or (g : Nat → Nat) (p : Nat → Bool) :
    ∀ (l : List Nat) (acc i : Nat),
      (l.foldl (fun byte bit => if p bit then byte ||| g bit else byte)
          acc).testBit i
        = (acc.testBit i || l.any fun bit => p bit && (g bit).testBit i) := by
  intro l
  induction l with
  | nil => intro acc i; simp
  | cons b bs ih =>
    intro acc i
    rw [List.foldl_cons, List.any_cons]
    by_cases hp : p b
    · rw [if_pos hp, ih, Nat.testBit_or]
      simp [hp, Bool.or_assoc]
    · rw [if_neg hp, ih]
      simp [hp]

lemma encode_byte_eq_fold (img : Nat → Nat → Nat) (W x y : Nat) :
    encode_byte img W x y =
      (List.range 8).foldl
        (fun byte bit =>
          if (decide (x + bit < W) && decide (img (x + bit) y = 0)) then
            byte ||| (128 >>> bit)
          else byte)
        0 := by
  unfold encode_byte
  congr 1
  funext byte bit
  by_cases h1 : x + bit < W <;> by_cases h2 : img (x + bit) y = 0 <;>
    simp [h1, h2]

lemma testBit_128_shift (bit i : Nat) (hb : bit < 8) (hi : i < 8) :
    (128 >>> bit).testBit i = decide (bit + i = 7) := by
  interval_cases bit <;> interval_cases i <;> decide

lemma any_congr_mem {α} (l : List α) (f g : α → Bool)
    (h : ∀ a ∈ l, f a = g a) : l.any f = l.any g := by
  induction l with
  | nil => rfl
  | cons a as ih =>
    simp only [List.any_cons, h a (by simp)]
    rw [ih (fun x hx => h x (by simp [hx]))]

lemma any_range_pick (p : Nat → Bool) (b n : Nat) (hb : b < n) :
    ((List.range n).any fun bit => p bit && decide (bit = b)) = p b := by
  cases h : p b with
  | true =>
    rw [List.any_eq_true]
    exact ⟨b, List.mem_range.mpr hb, by simp [h]⟩
  | false =>
    rw [List.any_eq_false]
    intro x _
    by_cases hx : x = b
    · subst hx; simp [h]
    · simp [hx]

/-- Bit `7 - b` of an encoded byte (MSB-first position `b`) is set exactly
when the pixel at column offset `b` is in range and black. -/
lemma encode_byte_testBit (img : Nat → Nat → Nat) (W x y b : Nat) (hb : b < 8) :
    (encode_byte img W x y).testBit (7 - b)
      = (decide (x + b < W) && decide (img (x + b) y = 0)) := by
  rw [encode_byte_eq_fold,
    testBit_foldl_or (fun bit => 128 >>> bit)
      (fun bit => decide (x + bit < W) && decide (img (x + bit) y = 0))
      (List.range 8) 0 (7 - b)]
  rw [Nat.zero_testBit, Bool.false_or]
  rw [any_congr_mem _ _
    (fun bit => (decide (x + bit < W) && decide (img (x + bit) y = 0)) &&
      decide (bit = b)) ?_]
  · exact any_range_pick _ b 8 hb
  · intro bit hbit
    have hbit8 : bit < 8 := List.mem_range.mp hbit
    rw [testBit_128_shift bit (7 - b) hbit8 (by omega)]
    have hiff : (bit + (7 - b) = 7) ↔ (bit = b) := by omega
    simp only [hiff]

lemma length_flatten_map_range {α} (f : Nat → List α) (n : Nat)
    (hf : ∀ y, (f y).length = n) :
    ∀ H, (((List.range H).map f).flatten).length = H * n := by
  intro H
  induction H with
  | zero => simp
  | succ H ih =>
    rw [List.range_succ, List.map_append, List.flatten_append,
      List.length_append, ih]
    simp [hf H, Nat.succ_mul]

lemma getElem_flatten_map_range {α} (f : Nat → List α) (n : Nat)
    (hf : ∀ y, (f y).length = n) :
    ∀ H y k, y < H → k < n →
      (((List.range H).map f).flatten)[y * n + k]? = (f y)[k]? := by
  intro H
  induction H with
  | zero => intro y k hy _; omega
  | succ H ih =>
    intro y k hy hk
    rw [List.range_succ, List.map_append, List.flatten_append]
    by_cases h : y < H
    · have hlt : y * n + k < ((List.range H).map f).flatten.length := by
        rw [length_flatten_map_range f n hf H]
        calc y * n + k < y * n + n := by omega
          _ = (y + 1) * n := (Nat.succ_mul y n).symm
          _ ≤ H * n := Nat.mul_le_mul_right n (by omega)
      rw [List.getElem?_append, if_pos hlt]
      exact ih y k h hk
    · have hy' : y = H := by omega
      rw [hy']
      have hge : ¬ (H * n + k < ((List.range H).map f).flatten.length) := by
        rw [length_flatten_map_range f n hf H]
        omega
      rw [List.getElem?_append, if_neg hge, length_flatten_map_range f n hf H]
      have hsub : H * n + k - H * n = k := by omega
      rw [hsub]
      simp

/-- An all-blank (all-white) source image: every pixel reads 255. -/
def blank_img : Nat → Nat → Nat := fun _ _ => 255

/-- C1 (counterexample): encoding an all-blank 8×1 canvas yields the single
byte 0 — its MSB is 0 although the corresponding pixel is blank, so a bit is
1 exactly when the pixel is black, not blank as claimed. -/
theorem C1_counterexample :
    display_image_buf blank_img 8 1 = [0] ∧
    blank_img 0 0 ≠ 0 ∧
    (0 : Nat).testBit 7 = false := by
  refine ⟨by decide, by decide, by decide⟩

/-- C1 (amended): the encoded frame is exactly `ceil(W/8) * H` bytes in
row-major order (row `y`, byte `k` sits at flat index `y * ceil(W/8) + k`),
MSB-first within each byte, and a bit is 1 exactly when the corresponding
in-range source pixel reads 0 — i.e. is black (ink), not blank. -/
theorem C1_frame_layout (img : Nat → Nat → Nat) (W H y k b : Nat)
    (hy : y < H) (hk : k < (W + 7) / 8) (hb : b < 8) :
    (display_image_buf img W H).length = ((W + 7) / 8) * H ∧
    (display_image_buf img W H)[y * ((W + 7) / 8) + k]? =
      some (encode_byte img W (8 * k) y) ∧
    (encode_byte img W (8 * k) y).testBit (7 - b) =
      (decide (8 * k + b < W) && decide (img (8 * k + b) y = 0)) := by
  have hf : ∀ y', ((List.range ((W + 7) / 8)).map
      (fun k' => encode_byte img W (8 * k') y')).length = (W + 7) / 8 := by
    intro y'; simp
  refine ⟨?_, ?_, encode_byte_testBit img W (8 * k) y b hb⟩
  · rw [display_image_buf, length_flatten_map_range _ _ hf H, Nat.mul_comm]
  · rw [display_image_buf, getElem_flatten_map_range _ _ hf H y k hy hk]
    rw [List.getElem?_map, List.getElem?_range hk]
    rfl

/-- A concrete checkerboard-ish image for the C1 witness. -/
def sample_img : Nat → Nat → Nat := fun x y => if (x + y) % 2 = 0 then 0 else 255

/-- C1 (witness): the amended layout theorem applied to a concrete 10×2
canvas at row 1, byte 1, bit position 2. -/
theorem C1_frame_layout_witness :
    (display_image_buf sample_img 10 2).length = ((10 + 7) / 8) * 2 ∧
    (display_image_buf sample_img 10 2)[1 * ((10 + 7) / 8) + 1]? =
      some (encode_byte sample_img 10 (8 * 1) 1) ∧
    (encode_byte sample_img 10 (8 * 1) 1).testBit (7 - 2) =
      (decide (8 * 1 + 2 < 10) && decide (sample_img (8 * 1 + 2) 1 = 0)) :=
  C1_frame_layout sample_img 10 2 1 1 2 (by decide) (by decide) (by decide)

/-! ## Readers and page navigation -/

/-- `BookReader` (`src/Firmware`): file path, paginated pages, cursor. -/
structure BookReaderSt where
  file_path : List Char
  pages : List (List Char)
  current_page : Nat
deriving DecidableEq, Repr

/-- `BookReader.next_page` (`src/Firmware`): advance the cursor if not on the
last page (`display_page`, a pure redraw, is not modelled as state) and
return whether movement occurred.  Python's `len(self.pages) - 1` is `-1` for
an empty page list, where the comparison is false just as with truncated
natural subtraction. -/
def next_page (r : BookReaderSt) : BookReaderSt × Bool :=
  if r.current_page < r.pages.length - 1 then
    ({ r with current_page := r.current_page + 1 }, true)
  else (r, false)

/-- `BookReader.prev_page` (`src/Firmware`). -/
def prev_page (r : BookReaderSt) : BookReaderSt × Bool :=
  if 0 < r.current_page then
    ({ r with current_page := r.current_page - 1 }, true)
  else (r, false)

/-- `TextBookReader.next_page` (`src/Production`): same cursor update, but
the method body has no `return` statement — Python yields `None`, not the
movement flag. -/
def TextBookReader_next_page (r : BookReaderSt) : BookReaderSt × Option Bool :=
  if r.current_page < r.pages.length - 1 then
    ({ r with current_page := r.current_page + 1 }, none)
  else (r, none)

/-- `TextBookReader.prev_page` (`src/Production`): likewise returns `None`. -/
def TextBookReader_prev_page (r : BookReaderSt) : BookReaderSt × Option Bool :=
  if 0 < r.current_page then
    ({ r with current_page := r.current_page - 1 }, none)
  else (r, none)

/-- The production reader variants (`src/Production`): `TextBookReader`,
`PDFBookReader` (page count from `fitz`, pages rasterized on demand),
`EPUBBookReader`. -/
inductive PReader where
  | text (pages : List (List Char)) (current_page : Nat)
  | pdf (total_pages : Nat) (current_page : Nat)
  | epub (pages : List (List Char)) (current_page : Nat)
deriving DecidableEq, Repr

/-- The `current_page` attribute of a production reader. -/
def PReader.current_page : PReader → Nat
  | .text _ p => p
  | .pdf _ p => p
  | .epub _ p => p

/-- The page count a production reader reports (`len(self.pages)` or
`self.total_pages`). -/
def PReader.page_count : PReader → Nat
  | .text ps _ => ps.length
  | .pdf n _ => n
  | .epub ps _ => ps.length

/-- The `self.current_book.current_page = …` assignment used for bookmark
resume. -/
def PReader.set_current_page : PReader → Nat → PReader
  | .text ps _, p => .text ps p
  | .pdf n _, p => .pdf n p
  | .epub ps _, p => .epub ps p

/-! ## Application state and handlers -/

/-- A file listed by `FileManager`: its full path string and its lowercased
extension (`file_path.suffix.lower()`). -/
structure BookFile where
  path : List Char
  suffix : List Char
deriving DecidableEq, Repr

/-- `FileManager.get_file_path`: the file at `index`, or `None` when out of
range. -/
def get_file_path (files : List BookFile) (i : Nat) : Option BookFile :=
  files[i]?

/-- `EReader` application state (`src/Firmware`). -/
structure EReaderSt where
  current_menu : Mode
  selected_index : Nat
  current_files : List BookFile
  current_book : Option BookReaderSt
  settings : Settings
deriving DecidableEq, Repr

/-- `EReader.show_main_menu`: `refresh_files` re-scans the book directory
(the fresh listing is the parameter `scan`), the menu is drawn with the
unchanged `selected_index`, and the mode becomes `'main'`. -/
def show_main_menu (scan : List BookFile) (st : EReaderSt) : EReaderSt :=
  { st with current_files := scan, current_menu := .main }

/-- `EReader.handle_up`: in the menu, move the selection up if possible and
redraw (re-scanning); while reading, turn back one page. -/
def handle_up (scan : List BookFile) (st : EReaderSt) : EReaderSt :=
  match st.current_menu with
  | .main =>
    if 0 < st.selected_index then
      show_main_menu scan { st with selected_index := st.selected_index - 1 }
    else st
  | .reading =>
    match st.current_book with
    | some b => { st with current_book := some (prev_page b).1 }
    | none => st

/-- `EReader.handle_down`: the bound check uses the cached file list
(`get_file_list` without a refresh); the redraw then re-scans.  Python's
`len(files) - 1` is `-1` on an empty list, where the `<` is false just as
with truncated natural subtraction. -/
def handle_down (scan : List BookFile) (st : EReaderSt) : EReaderSt :=
  match st.current_menu with
  | .main =>
    if st.selected_index < st.current_files.length - 1 then
      show_main_menu scan { st with selected_index := st.selected_index + 1 }
    else st
  | .reading =>
    match st.current_book with
    | some b => { st with current_book := some (next_page b).1 }
    | none => st

/-- `EReader.handle_menu` (and the identical `handle_back`): while reading,
return to the menu and redraw it (re-scanning the directory). -/
def handle_menu (scan : List BookFile) (st : EReaderSt) : EReaderSt :=
  if st.current_menu = .reading then
    show_main_menu scan { st with current_menu := .main }
  else st

/-- `EReader.handle_bookmark`: while reading, persist the current book path
and cursor into the settings (`save_settings` write is the settings state). -/
def handle_bookmark (st : EReaderSt) : EReaderSt :=
  match st.current_menu, st.current_book with
  | .reading, some b =>
    { st with settings :=
        { st.settings with
            last_book := some b.file_path
            last_page := b.current_page } }
  | _, _ => st

/-- `EReader.open_book` (`src/Firmware`): only `.txt` is handled; a fresh
`BookReader` is constructed (cursor 0 in `BookReader.__init__`), the cursor
is overridden by `settings['last_page']` exactly when `str(file_path)` equals
`settings.get('last_book')`, and the mode becomes `'reading'`.  `read` models
the outcome of reading the selected file; `load_book` never raises, so the
surrounding `except` is unreachable for `.txt`. -/
def open_book (read : Except (List Char) (List Char)) (st : EReaderSt) :
    EReaderSt :=
  match get_file_path st.current_files st.selected_index with
  | none => st
  | some f =>
    if f.suffix = ".txt".data then
      { st with
          current_book := some
            { file_path := f.path
              pages := load_book read
              current_page :=
                if st.settings.last_book = some f.path then
                  st.settings.last_page
                else 0 }
          current_menu := .reading }
    else st

/-- Production application state (its `open_book` lives on the same
`EReader`-style object; `src/Production`). -/
structure ProdSt where
  current_menu : Mode
  selected_index : Nat
  current_files : List BookFile
  current_book : Option PReader
  settings : Settings
deriving DecidableEq, Repr

/-- The success tail of the production `open_book`: bookmark resume (cursor
overridden without any range check when the path matches) and entry into
reading mode. -/
def prod_finish (r : PReader) (f : BookFile) (st : ProdSt) : ProdSt :=
  { st with
      current_book := some
        (if st.settings.last_book = some f.path then
          r.set_current_page st.settings.last_page
        else r)
      current_menu := .reading }

/-- `open_book` (`src/Production`): dispatch on the lowercased extension.
`TextBookReader` cannot raise (its `load_book` catches); `PDFBookReader.__init__`
(`fitz.open`) and `EPUBBookReader.__init__` (`epub.read_epub` + parse) can —
their failures hit the `except` block, which only logs: the state is left
unchanged.  An unrecognized extension logs a warning and returns. -/
def prod_open_book (txt_read : Except (List Char) (List Char))
    (pdf_open : Except (List Char) Nat)
    (epub_read : Except (List Char) (List (List Char)))
    (st : ProdSt) : ProdSt :=
  match get_file_path st.current_files st.selected_index with
  | none => st
  | some f =>
    if f.suffix = ".txt".data then
      prod_finish (.text (load_book txt_read) 0) f st
    else if f.suffix = ".pdf".data then
      match pdf_open with
      | .error _ => st
      | .ok n => prod_finish (.pdf n 0) f st
    else if f.suffix = ".epub".data then
      match epub_read with
      | .error _ => st
      | .ok texts => prod_finish (.epub (parse_book texts) 0) f st
    else st

/-! ## C2: cursor invariant -/

/-- The spec's cursor invariant: `0 <= cursor < pageCount` and
`pageCount >= 1` (the lower bound on the cursor is inherent to `Nat`). -/
def cursor_invariant (cursor count : Nat) : Prop :=
  cursor < count ∧ 1 ≤ count

instance (c n : Nat) : Decidable (cursor_invariant c n) :=
  inferInstanceAs (Decidable (c < n ∧ 1 ≤ n))

/-- The book file and state used for the C2 counterexample: the settings
remember this very path with `last_page = 7`. -/
def c2_state : EReaderSt :=
  { current_menu := .main
    selected_index := 0
    current_files := [⟨"/home/pi/books/a.txt".data, ".txt".data⟩]
    current_book := none
    settings :=
      { last_book := some "/home/pi/books/a.txt".data
        last_page := 7
        font_size := 16 } }

/-- C2 (counterexample): opening a one-page book whose path matches the
stored bookmark with stored `last_page = 7` yields a reader with cursor 7 and
page count 1 — the resume assignment has no range check, so the cursor
invariant is violated; moreover the EPUB parse of a document whose only item
has empty text yields zero pages, violating `pageCount >= 1`. -/
theorem C2_counterexample :
    (open_book (.ok ('h' :: 'i' :: [])) c2_state).current_book =
      some ⟨"/home/pi/books/a.txt".data, load_book (.ok ('h' :: 'i' :: [])), 7⟩ ∧
    (load_book (.ok ('h' :: 'i' :: []))).length = 1 ∧
    ¬ cursor_invariant 7 (load_book (.ok ('h' :: 'i' :: []))).length ∧
    parse_book [[]] = [] ∧
    ¬ 1 ≤ (parse_book [[]]).length := by
  refine ⟨by decide, by decide, by decide, by decide, by decide⟩

/-- C2 (amended): for the plain-text reader the invariant does hold after
load — even a failed load yields exactly one diagnostic page with cursor 0 —
and `next_page` / `prev_page` preserve it (they never change the page list);
the violations are confined to the unchecked bookmark resume and to the
PDF/EPUB variants. -/
theorem C2_text_cursor_invariant (read : Except (List Char) (List Char))
    (r : BookReaderSt)
    (h : cursor_invariant r.current_page r.pages.length) :
    cursor_invariant 0 (load_book read).length ∧
    cursor_invariant (next_page r).1.current_page
      (next_page r).1.pages.length ∧
    cursor_invariant (prev_page r).1.current_page
      (prev_page r).1.pages.length ∧
    (next_page r).1.pages = r.pages ∧
    (prev_page r).1.pages = r.pages := by
  obtain ⟨hc, hp⟩ := h
  have hload := load_book_pos read
  refine ⟨⟨hload, hload⟩, ?_, ?_, ?_, ?_⟩
  · by_cases h1 : r.current_page < r.pages.length - 1 <;>
      simp only [next_page, if_pos, if_neg, h1, if_true, if_false] <;>
      exact ⟨by omega, by omega⟩
  · by_cases h1 : 0 < r.current_page <;>
      simp only [prev_page, h1, if_true, if_false] <;>
      exact ⟨by omega, by omega⟩
  · by_cases h1 : r.current_page < r.pages.length - 1 <;>
      simp [next_page, h1]
  · by_cases h1 : 0 < r.current_page <;>
      simp [prev_page, h1]

/-- C2 (witness): the amended invariant theorem at a concrete successful read
and a concrete two-page reader on its first page. -/
theorem C2_text_cursor_invariant_witness :
    cursor_invariant 0 (load_book (.ok ('h' :: 'i' :: []))).length ∧
    cursor_invariant
      (next_page ⟨('a' :: []), [['x'], ['y']], 0⟩).1.current_page
      (next_page ⟨('a' :: []), [['x'], ['y']], 0⟩).1.pages.length ∧
    cursor_invariant
      (prev_page ⟨('a' :: []), [['x'], ['y']], 0⟩).1.current_page
      (prev_page ⟨('a' :: []), [['x'], ['y']], 0⟩).1.pages.length ∧
    (next_page ⟨('a' :: []), [['x'], ['y']], 0⟩).1.pages = [['x'], ['y']] ∧
    (prev_page ⟨('a' :: []), [['x'], ['y']], 0⟩).1.pages = [['x'], ['y']] :=
  C2_text_cursor_invariant (.ok ('h' :: 'i' :: []))
    ⟨('a' :: []), [['x'], ['y']], 0⟩ (by decide)

/-! ## C4: failed PDF open -/

/-- The production state used for C4: one corrupt `.pdf` file listed, no book
open, default settings. -/
def c4_state : ProdSt :=
  { current_menu := .main
    selected_index := 0
    current_files := [⟨"/home/pi/books/b.pdf".data, ".pdf".data⟩]
    current_book := none
    settings := default_settings }

/-- C4 (counterexample): when `fitz.open` fails on the selected `.pdf`, the
production `open_book` leaves the state exactly unchanged — no reader exists
at all (so nothing reports `pageCount = 1` with a diagnostic page) and the
application silently stays in the menu. -/
theorem C4_counterexample :
    prod_open_book (.error ('u' :: []))
      (.error "cannot open broken file".data) (.error ('u' :: []))
      c4_state = c4_state ∧
    c4_state.current_book = none ∧
    c4_state.current_menu = .main := by
  refine ⟨by decide, by decide, by decide⟩

/-- C4 (amended): a failed PDF open is caught by `open_book`'s `except`,
which only logs: the state — menu mode, prior reader — is unchanged and no
diagnostic reader is built.  The single-diagnostic-page fallback exists only
in the plain-text reader, whose failed load is one non-empty error page. -/
theorem C4_pdf_failure_silent (st : ProdSt) (f : BookFile) (e msg : List Char)
    (tr : Except (List Char) (List Char))
    (er : Except (List Char) (List (List Char)))
    (hsel : get_file_path st.current_files st.selected_index = some f)
    (hsuf : f.suffix = ".pdf".data) :
    prod_open_book tr (.error e) er st = st ∧
    load_book (.error msg) = [error_page msg] ∧
    1 ≤ (load_book (.error msg)).length ∧
    error_page msg ≠ [] := by
  refine ⟨?_, rfl, load_book_pos _, by simp [error_page]⟩
  simp only [prod_open_book, hsel, hsuf]
  simp

/-- C4 (witness): the amended theorem at the concrete corrupt-PDF state. -/
theorem C4_pdf_failure_silent_witness :
    prod_open_book (.error ('u' :: [])) (.error ('e' :: []))
      (.error ('u' :: [])) c4_state = c4_state ∧
    load_book (.error ('e' :: [])) = [error_page ('e' :: [])] ∧
    1 ≤ (load_book (.error ('e' :: []))).length ∧
    error_page ('e' :: []) ≠ [] :=
  C4_pdf_failure_silent c4_state ⟨"/home/pi/books/b.pdf".data, ".pdf".data⟩
    ('e' :: []) ('e' :: []) (.error ('u' :: [])) (.error ('u' :: []))
    (by decide) (by decide)

/-! ## C5: rejoining pages -/

/-- Fuel-indexed reference wrap for claim C5, following the specification's
words rather than either source function: a line of at most 80 columns stays
one line; a longer line splits into consecutive 80-column chunks. -/
def hard_wrap_spec_fuel : Nat → List Char → List (List Char)
  | 0, line => [line]
  | fuel + 1, line =>
    if line.length ≤ 80 then [line]
    else line.take 80 :: hard_wrap_spec_fuel fuel (line.drop 80)

/-- The specification-side hard-wrap of one line (reference for C5). -/
def hard_wrap_spec (line : List Char) : List (List Char) :=
  hard_wrap_spec_fuel line.length line

/-- The source text wrap coincides with the spec-side hard-wrap. -/
lemma hard_wrap_spec_eq_wrapLine : ∀ l, hard_wrap_spec l = wrapLine l := by
  have haux : ∀ fuel l, hard_wrap_spec_fuel fuel l = wrapLineFuel fuel l := by
    intro fuel
    induction fuel with
    | zero => intro l; rfl
    | succ fuel ih =>
      intro l
      rw [hard_wrap_spec_fuel, wrapLineFuel]
      by_cases h : 80 < l.length
      · rw [if_neg (by omega), if_pos h, ih]
      · rw [if_pos (by omega), if_neg h]
  intro l
  rw [hard_wrap_spec, wrapLine, haux]

/-- C5 (counterexample): on the input `"a\n\nb"` the EPUB paginator's pages
rejoin to `["a", "b"]`, dropping the empty middle line, whereas the line
sequence up to hard-wrap splitting is `["a", "", "b"]` — the claim fails for
the flow-text paginator. -/
theorem C5_counterexample :
    pages_lines (paginate ('a' :: '\n' :: '\n' :: 'b' :: [])) =
      [['a'], ['b']] ∧
    ((splitNl ('a' :: '\n' :: '\n' :: 'b' :: [])).map
        hard_wrap_spec).flatten = [['a'], [], ['b']] ∧
    pages_lines (paginate ('a' :: '\n' :: '\n' :: 'b' :: [])) ≠
      ((splitNl ('a' :: '\n' :: '\n' :: 'b' :: [])).map
        hard_wrap_spec).flatten := by
  refine ⟨by decide, by decide, by decide⟩

/-- C5 (amended): the plain-text paginator's pages rejoin to exactly the
hard-wrapped line sequence (no characters dropped or duplicated, lines of at
most 80 columns kept whole); the EPUB paginator's pages rejoin to the
`wrapped80` sequence, which agrees except that an empty line contributes no
chunks at all — so for the flow-text paginator the claim holds only up to the
removal of empty lines. -/
theorem C5_rejoin_up_to_hard_wrap (content l : List Char) :
    pages_lines (load_book_pages content) =
      ((splitNl content).map hard_wrap_spec).flatten ∧
    pages_lines (paginate content) =
      ((splitNl content).map wrapped80).flatten ∧
    (hard_wrap_spec l).flatten = l ∧
    (wrapped80 l).flatten = l ∧
    (l.length ≤ 80 → hard_wrap_spec l = [l]) ∧
    (l ≠ [] → l.length ≤ 80 → wrapped80 l = [l]) ∧
    wrapped80 [] = [] := by
  have hwl : hard_wrap_spec = wrapLine := funext hard_wrap_spec_eq_wrapLine
  refine ⟨?_, paginate_lines content, ?_, wrapped80_join l, ?_,
    wrapped80_short l, rfl⟩
  · rw [hwl]
    exact load_book_pages_lines content
  · rw [hwl]
    exact wrapLine_join l
  · intro h
    rw [hwl]
    exact wrapLine_short l h

/-- C5 (witness): the amended theorem at a concrete two-line input and a
concrete short line. -/
theorem C5_rejoin_witness :
    pages_lines (load_book_pages "hi\nthere".data) =
      ((splitNl "hi\nthere".data).map hard_wrap_spec).flatten ∧
    pages_lines (paginate "hi\nthere".data) =
      ((splitNl "hi\nthere".data).map wrapped80).flatten ∧
    hard_wrap_spec ('o' :: 'k' :: []) = [('o' :: 'k' :: [])] ∧
    wrapped80 ('o' :: 'k' :: []) = [('o' :: 'k' :: [])] := by
  obtain ⟨h1, h2, _, _, h5, h6, _⟩ :=
    C5_rejoin_up_to_hard_wrap "hi\nthere".data ('o' :: 'k' :: [])
  exact ⟨h1, h2, h5 (by decide), h6 (by decide) (by decide)⟩

/-! ## C6: advance/retreat algebra -/

/-- C6 (counterexample): the production `TextBookReader.next_page` moves the
cursor from an interior page but returns `None`, not the movement flag the
claim says both implementations return. -/
theorem C6_counterexample :
    (TextBookReader_next_page
      ⟨"b.txt".data, [['a'], ['b']], 0⟩).1.current_page = 1 ∧
    (TextBookReader_next_page ⟨"b.txt".data, [['a'], ['b']], 0⟩).2 = none ∧
    (TextBookReader_next_page ⟨"b.txt".data, [['a'], ['b']], 0⟩).2 ≠
      some true := by
  refine ⟨by decide, by decide, by decide⟩

/-- C6 (amended): for the firmware reader, `next_page` then `prev_page` from
any page that can advance restores the cursor; at the last page `next_page`
is a no-op returning `false`; at page 0 `prev_page` is a no-op returning
`false`; and the returned Boolean equals whether the cursor moved.  The
production `TextBookReader` performs the identical cursor updates but its
methods return `None` rather than the movement flag. -/
theorem C6_advance_retreat (r : BookReaderSt) :
    (r.current_page < r.pages.length - 1 →
      (prev_page (next_page r).1).1.current_page = r.current_page ∧
      (next_page r).2 = true) ∧
    (¬ r.current_page < r.pages.length - 1 → next_page r = (r, false)) ∧
    (r.current_page = 0 → prev_page r = (r, false)) ∧
    ((next_page r).2 = true ↔
      (next_page r).1.current_page ≠ r.current_page) ∧
    ((prev_page r).2 = true ↔
      (prev_page r).1.current_page ≠ r.current_page) ∧
    (TextBookReader_next_page r).1 = (next_page r).1 ∧
    (TextBookReader_next_page r).2 = none ∧
    (TextBookReader_prev_page r).1 = (prev_page r).1 ∧
    (TextBookReader_prev_page r).2 = none := by
  refine ⟨?_, ?_, ?_, ?_, ?_, ?_, ?_, ?_, ?_⟩
  · intro h
    simp [next_page, prev_page, h]
  · intro h
    simp [next_page, h]
  · intro h
    simp [prev_page, h]
  · by_cases h : r.current_page < r.pages.length - 1 <;> simp [next_page, h]
  · by_cases h : 0 < r.current_page <;> simp [prev_page, h] <;> omega
  · by_cases h : r.current_page < r.pages.length - 1 <;>
      simp [next_page, TextBookReader_next_page, h]
  · by_cases h : r.current_page < r.pages.length - 1 <;>
      simp [TextBookReader_next_page, h]
  · by_cases h : 0 < r.current_page <;>
      simp [prev_page, TextBookReader_prev_page, h]
  · by_cases h : 0 < r.current_page <;>
      simp [TextBookReader_prev_page, h]

/-- C6 (witness): the amended theorem applied at an interior page of a
three-page reader and at the boundary pages of a one-page reader. -/
theorem C6_advance_retreat_witness :
    ((prev_page (next_page ⟨"b.txt".data, [['a'], ['b'], ['c']], 1⟩).1).1.current_page = 1 ∧
      (next_page ⟨"b.txt".data, [['a'], ['b'], ['c']], 1⟩).2 = true) ∧
    next_page ⟨"b.txt".data, [['a']], 0⟩ = (⟨"b.txt".data, [['a']], 0⟩, false) ∧
    prev_page ⟨"b.txt".data, [['a']], 0⟩ = (⟨"b.txt".data, [['a']], 0⟩, false) := by
  refine ⟨(C6_advance_retreat ⟨"b.txt".data, [['a'], ['b'], ['c']], 1⟩).1
    (by decide), ?_, ?_⟩
  · exact (C6_advance_retreat ⟨"b.txt".data, [['a']], 0⟩).2.1 (by decide)
  · exact (C6_advance_retreat ⟨"b.txt".data, [['a']], 0⟩).2.2.1 (by decide)

/-! ## C7: selected-index invariant -/

/-- The spec's menu-selection invariant:
`0 <= selectedIndex < fileCount` when files exist, else `selectedIndex = 0`. -/
def sel_invariant (st : EReaderSt) : Prop :=
  (st.current_files.length = 0 → st.selected_index = 0) ∧
  (0 < st.current_files.length → st.selected_index < st.current_files.length)

instance (st : EReaderSt) : Decidable (sel_invariant st) :=
  inferInstanceAs (Decidable (_ ∧ _))

/-- Menu state for the C7 counterexample: five books listed, the fourth
selected. -/
def c7_state : EReaderSt :=
  { current_menu := .main
    selected_index := 3
    current_files :=
      [⟨('a' :: []), ".txt".data⟩, ⟨('b' :: []), ".txt".data⟩,
        ⟨('c' :: []), ".txt".data⟩, ⟨('d' :: []), ".txt".data⟩,
        ⟨('e' :: []), ".txt".data⟩]
    current_book := none
    settings := default_settings }

/-- A shrunken directory listing (three books were deleted externally). -/
def c7_scan : List BookFile :=
  [⟨('a' :: []), ".txt".data⟩, ⟨('b' :: []), ".txt".data⟩]

/-- C7 (counterexample): from an invariant-satisfying menu state, one `down`
action whose redraw re-scans a shrunken directory leaves
`selected_index = 4` against a file count of 2 — the redraw never clamps the
selection, so the invariant is not preserved. -/
theorem C7_counterexample :
    sel_invariant c7_state ∧
    ¬ sel_invariant (handle_down c7_scan c7_state) ∧
    (handle_down c7_scan c7_state).selected_index = 4 ∧
    (handle_down c7_scan c7_state).current_files.length = 2 := by
  refine ⟨by decide, by decide, by decide, by decide⟩

/-- C7 (amended): `handle_up`, `handle_down`, the menu redraw, the
menu/back handler and the bookmark handler all preserve the selection
invariant provided the redraw's directory re-scan lists at least as many
files as the cached listing (`st.current_files.length ≤ scan.length`); the
redraw itself always keeps `selected_index` unchanged while replacing the
file list with the fresh scan — it never clamps — which is why a re-scan
shorter than the cached listing can leave the selection out of range. -/
theorem C7_selected_index_preserved (scan : List BookFile) (st : EReaderSt)
    (h : sel_invariant st) (hscan : st.current_files.length ≤ scan.length) :
    sel_invariant (handle_up scan st) ∧
    sel_invariant (handle_down scan st) ∧
    sel_invariant (show_main_menu scan st) ∧
    sel_invariant (handle_menu scan st) ∧
    sel_invariant (handle_bookmark st) ∧
    (show_main_menu scan st).selected_index = st.selected_index ∧
    (show_main_menu scan st).current_files = scan := by
  obtain ⟨h0, h1⟩ := h
  have hcases : st.current_files.length = 0 ∧ st.selected_index = 0 ∨
      st.selected_index < st.current_files.length := by
    rcases Nat.eq_zero_or_pos st.current_files.length with hz | hp
    · exact Or.inl ⟨hz, h0 hz⟩
    · exact Or.inr (h1 hp)
  refine ⟨?_, ?_, ?_, ?_, ?_, rfl, rfl⟩
  · cases hm : st.current_menu
    · simp only [handle_up, hm]
      by_cases hi : 0 < st.selected_index
      · simp only [if_pos hi, show_main_menu, sel_invariant]
        constructor <;> intro <;> omega
      · simp only [if_neg hi]
        exact ⟨h0, h1⟩
    · simp only [handle_up, hm]
      cases hb : st.current_book
      · exact ⟨h0, h1⟩
      · simp only [sel_invariant]
        exact ⟨h0, h1⟩
  · cases hm : st.current_menu
    · simp only [handle_down, hm]
      by_cases hi : st.selected_index < st.current_files.length - 1
      · simp only [if_pos hi, show_main_menu, sel_invariant]
        constructor <;> intro <;> omega
      · simp only [if_neg hi]
        exact ⟨h0, h1⟩
    · simp only [handle_down, hm]
      cases hb : st.current_book
      · exact ⟨h0, h1⟩
      · simp only [sel_invariant]
        exact ⟨h0, h1⟩
  · simp only [show_main_menu, sel_invariant]
    constructor <;> intro <;> omega
  · by_cases hr : st.current_menu = .reading
    · simp only [handle_menu, if_pos hr, show_main_menu, sel_invariant]
      constructor <;> intro <;> omega
    · simp only [handle_menu, if_neg hr]
      exact ⟨h0, h1⟩
  · cases hm : st.current_menu <;> cases hb : st.current_book <;>
      simp only [handle_bookmark, hm, hb, sel_invariant] <;>
      exact ⟨h0, h1⟩

/-- C7 (witness): the preserved-invariant theorem at the concrete 5-book
menu state with an equal-sized re-scan. -/
theorem C7_selected_index_preserved_witness :
    sel_invariant (handle_up c7_state.current_files c7_state) ∧
    sel_invariant (handle_down c7_state.current_files c7_state) ∧
    sel_invariant (show_main_menu c7_state.current_files c7_state) ∧
    sel_invariant (handle_menu c7_state.current_files c7_state) ∧
    sel_invariant (handle_bookmark c7_state) ∧
    (show_main_menu c7_state.current_files c7_state).selected_index =
      c7_state.selected_index ∧
    (show_main_menu c7_state.current_files c7_state).current_files =
      c7_state.current_files :=
  C7_selected_index_preserved c7_state.current_files c7_state
    (by decide) (by decide)

/-! ## C10: fresh reader and bookmark resume -/

end Lume
